import Mathlib

/-!
Verification of the core text heuristics of the document-intelligence pipeline
(`document_intelligence.py`).  Python strings are modelled as lists of
characters (`Str`); Python float arithmetic on densities and scores is
modelled exactly over `ℚ`; the external embedding model is an optional
similarity oracle.  Every definition below mirrors the corresponding Python
function; `*_spec`, `Shape*` and `HeaderSpec` definitions restate the
specification's reading of those functions, to be compared against the code.
-/

namespace DocIntel

/-- A Python string, modelled as its list of characters. -/
abbrev Str := List Char

/-- Python's per-character whitespace test (`str.isspace`), restricted to the
ASCII whitespace characters, which is also what `\s` matches in the regexes. -/
def pyWs (c : Char) : Bool :=
  c == ' ' || c == '\t' || c == '\n' || c == '\r' || c == '\x0b' || c == '\x0c'

/-- Python `str.strip()`: remove leading and trailing whitespace. -/
def pyStrip (l : Str) : Str :=
  ((l.dropWhile pyWs).reverse.dropWhile pyWs).reverse

/-- Split a string at every character satisfying `p`, keeping empty pieces,
as Python `str.split(sep)` and `re.split` with a one-character class do. -/
def splitP (p : Char → Bool) : Str → List Str
  | [] => [[]]
  | c :: rest =>
    match splitP p rest with
    | [] => [[]]
    | piece :: pieces =>
      if p c then [] :: piece :: pieces else (c :: piece) :: pieces

/-- Python `text.split('\n')`. -/
def pyLines (text : Str) : List Str := splitP (fun c => c == '\n') text

/-- Python `text.split()`: split on whitespace runs, dropping empty pieces. -/
def pySplitWs (text : Str) : List Str :=
  (splitP pyWs text).filter (fun w => !w.isEmpty)

/-- Python `str.isupper()`: at least one cased character and no lowercase
cased character (ASCII model, where the cased characters are the letters). -/
def pyIsUpper (l : Str) : Bool :=
  l.any (fun c => c.isAlpha) && l.all (fun c => !c.isLower)

/-- Python substring containment `needle in hay`. -/
def isSubstring (needle hay : Str) : Bool :=
  hay.tails.any (fun t => needle.isPrefixOf t)

/-- Python `str.lower()` (ASCII model). -/
def pyLower (l : Str) : Str := l.map Char.toLower

/-- The continuation character class of the first header regex: `[A-Za-z\s&-]`. -/
def headerBodyChar (c : Char) : Bool :=
  c.isAlpha || pyWs c || c == '&' || c == '-'

/-- `re.match(r'^[A-Z][A-Za-z\s&-]+$', line)`. -/
def patCapitalRun (l : Str) : Bool :=
  match l with
  | [] => false
  | c :: rest => c.isUpper && !rest.isEmpty && rest.all headerBodyChar

/-- The common shape of the two list-marker regexes `^cls+\.\s*[A-Z]`: a
nonempty run of class characters, a period, optional whitespace, a capital
(an anchored prefix match). -/
def markerPat (cls : Char → Bool) (l : Str) : Bool :=
  !(l.takeWhile cls).isEmpty &&
    match l.dropWhile cls with
    | c :: rest =>
      c == '.' &&
        match rest.dropWhile pyWs with
        | d :: _ => d.isUpper
        | [] => false
    | [] => false

/-- `re.match(r'^\d+\.\s*[A-Z]', line)` (an anchored prefix match). -/
def patNumbered (l : Str) : Bool := markerPat Char.isDigit l

/-- The roman-numeral character class `[IVX]`. -/
def romanChar (c : Char) : Bool := c == 'I' || c == 'V' || c == 'X'

/-- `re.match(r'^[IVX]+\.\s*[A-Z]', line)` (an anchored prefix match). -/
def patRoman (l : Str) : Bool := markerPat romanChar l

/-- `re.match(r'^[A-Z\s]+$', line)`. -/
def patAllCaps (l : Str) : Bool :=
  !l.isEmpty && l.all (fun c => c.isUpper || pyWs c)

/-- `re.match(r'^[A-Z][a-z]+\s+[A-Z][a-z]+', line)` (an anchored prefix match). -/
def patTwoWords (l : Str) : Bool :=
  match l with
  | [] => false
  | a :: r1 =>
    a.isUpper &&
      (!(r1.takeWhile Char.isLower).isEmpty &&
        (let r2 := r1.dropWhile Char.isLower
         !(r2.takeWhile pyWs).isEmpty &&
           match r2.dropWhile pyWs with
           | b :: e :: _ => b.isUpper && e.isLower
           | _ => false))

/-- `DocumentIntelligenceSystem._is_section_header`: length in [3,150], one of
five regex patterns matches, and neither exclusion fires (the exclusions are
re-tested inside the pattern loop but do not depend on the pattern). -/
def is_section_header (line : Str) : Bool :=
  if line.length < 3 ∨ line.length > 150 then false
  else
    [patCapitalRun line, patNumbered line, patRoman line, patAllCaps line,
        patTwoWords line].any
      (fun m =>
        m && !(pyIsUpper line && decide (line.length > 50)) &&
          !(decide (line.count '.' > 3)))

/-- `DocumentIntelligenceSystem._extract_meaningful_title`: first of the first
three sentence candidates with stripped length in [20,100]; else the first raw
line with stripped length in [10,100]; else the first 10 whitespace-separated
words joined by spaces, with an ellipsis iff there were more than 10 words. -/
def extract_meaningful_title (text : Str) : Str :=
  let sentences := splitP (fun c => c == '.' || c == '!' || c == '?') text
  match ((sentences.take 3).map pyStrip).find?
      (fun s => decide (20 ≤ s.length) && decide (s.length ≤ 100)) with
  | some s => s
  | none =>
    match ((pyLines text).map pyStrip).find?
        (fun s => decide (10 ≤ s.length) && decide (s.length ≤ 100)) with
    | some s => s
    | none =>
      List.intercalate [' '] ((pySplitWs text).take 10) ++
        (if 10 < (pySplitWs text).length then "...".data else [])

/-- A candidate section of one page: the dict `{'title': ..., 'text': ...}`. -/
structure TSec where
  title : Str
  text : Str
deriving DecidableEq, Inhabited

/-- One iteration of the line loop of `_extract_sections_from_page`; the state
is the pair (finished sections, current accumulator). -/
def seg_step (acc : List TSec × TSec) (rawLine : Str) : List TSec × TSec :=
  let line := pyStrip rawLine
  if line = [] then acc
  else if is_section_header line then
    (if pyStrip acc.2.text ≠ [] then
        acc.1 ++
          [⟨if acc.2.title = [] then line.take 100 else acc.2.title,
            pyStrip acc.2.text⟩]
      else acc.1,
     ⟨line, []⟩)
  else
    (acc.1, ⟨acc.2.title, acc.2.text ++ line ++ [' ']⟩)

/-- `DocumentIntelligenceSystem._extract_sections_from_page`. -/
def extract_sections_from_page (text : Str) : List TSec :=
  let r := (pyLines text).foldl seg_step ([], ⟨[], []⟩)
  let sections :=
    if pyStrip r.2.text ≠ [] then
      r.1 ++
        [⟨if r.2.title = [] then "Content".data else r.2.title,
          pyStrip r.2.text⟩]
    else r.1
  if sections = [] ∧ pyStrip text ≠ [] then
    [⟨extract_meaningful_title text, pyStrip text⟩]
  else sections

/-- The newline-density test of `_is_meaningful_section`:
`(text.count('\n') / len(text) > 0.1) if len(text) > 0 else False`,
with the real-valued ratio modelled exactly over `ℚ`. -/
def newline_noise (text : Str) : Bool :=
  if 0 < text.length then
    decide ((text.count '\n' : ℚ) / (text.length : ℚ) > 1 / 10)
  else false

/-- The digit-density test of `_is_meaningful_section`:
`(len(re.findall(r'\d', text)) / len(text) > 0.3) if len(text) > 0 else False`. -/
def digit_noise (text : Str) : Bool :=
  if 0 < text.length then
    decide (((text.filter Char.isDigit).length : ℚ) / (text.length : ℚ) > 3 / 10)
  else false

/-- `DocumentIntelligenceSystem._is_meaningful_section`: keep a section iff
none of the three noise tests fires. -/
def is_meaningful_section (text : Str) : Bool :=
  !([decide ((pySplitWs text).length < 10), newline_noise text,
      digit_noise text].any id)

/-- `DocumentIntelligenceSystem._classify_content_type`. -/
def classify_content_type (text : Str) : Str :=
  let t := pyLower text
  if isSubstring "abstract".data t || isSubstring "summary".data t then
    "abstract".data
  else if isSubstring "introduction".data t || isSubstring "background".data t then
    "introduction".data
  else if isSubstring "method".data t || isSubstring "approach".data t then
    "methodology".data
  else if isSubstring "result".data t || isSubstring "finding".data t then
    "results".data
  else if isSubstring "conclusion".data t || isSubstring "discussion".data t then
    "conclusion".data
  else if isSubstring "reference".data t || isSubstring "bibliography".data t then
    "references".data
  else "content".data

/-- The persona fields read by `create_persona_query`, after the `.get`
defaults have been applied. -/
structure Persona where
  role : Str := []
  expertise_areas : List Str := []
  focus_areas : List Str := []
deriving DecidableEq, Inhabited

/-- The job fields read by `create_persona_query`, after the `.get` defaults. -/
structure Job where
  task : Str := []
  requirements : List Str := []
deriving DecidableEq, Inhabited

/-- Python `", ".join(xs)`. -/
def commaJoin (xs : List Str) : Str := List.intercalate ", ".data xs

/-- `DocumentIntelligenceSystem.create_persona_query`. -/
def create_persona_query (persona : Persona) (job : Job) : Str :=
  let parts0 := [job.task]
  let parts1 :=
    if persona.expertise_areas.isEmpty then parts0
    else parts0 ++ ["Expertise in: ".data ++ commaJoin persona.expertise_areas]
  let parts2 :=
    if persona.focus_areas.isEmpty then parts1
    else parts1 ++ ["Focus on: ".data ++ commaJoin persona.focus_areas]
  let parts3 :=
    if job.requirements.isEmpty then parts2
    else parts2 ++ ["Requirements: ".data ++ commaJoin job.requirements]
  List.intercalate " | ".data (parts3 ++ ["Role: ".data ++ persona.role])

/-- The fixed content-type weight table of `rank_sections` (dict lookup with
default 1.0; the Python float literals are exact decimal rationals). -/
def contentWeight (ct : Str) : ℚ :=
  if ct = "abstract".data then 12 / 10
  else if ct = "introduction".data then 11 / 10
  else if ct = "methodology".data then 13 / 10
  else if ct = "results".data then 13 / 10
  else if ct = "conclusion".data then 12 / 10
  else if ct = "references".data then 5 / 10
  else if ct = "content".data then 1
  else 1

/-- A pooled section chunk as built by `extract_text_chunks`. -/
structure PySection where
  document : Str := []
  title : Str := []
  text : Str := []
  page : Nat := 0
  content_type : Str := []
deriving DecidableEq, Inhabited

/-- A section dict as augmented by `rank_sections` with `importance_rank`
and the raw `relevance_score`. -/
structure RankedSection where
  sec : PySection
  importance_rank : Nat
  relevance_score : ℚ
deriving DecidableEq

/-- The `(score * weight, i)` pairs built by the loop of `rank_sections`. -/
def weighted_pairs (sims : List ℚ) (secs : List PySection) : List (ℚ × Nat) :=
  (sims.zip secs).enum.map
    (fun p => (p.2.1 * contentWeight p.2.2.content_type, p.1))

/-- The ordering realising `weighted_scores.sort(reverse=True, key=lambda
x: x[0])`: descending on the first component.  The sort itself is stable, so
equal keys keep their original relative order. -/
def rankGE (a b : ℚ × ℕ) : Prop := b.1 ≤ a.1

instance : DecidableRel rankGE := fun a b => inferInstanceAs (Decidable (b.1 ≤ a.1))

instance : IsTotal (ℚ × ℕ) rankGE := ⟨fun a b => le_total b.1 a.1⟩

instance : IsTrans (ℚ × ℕ) rankGE := ⟨fun _ _ _ hab hbc => le_trans hbc hab⟩

/-- The sorted `(weighted score, original index)` list of `rank_sections`,
produced by a stable sort that is descending on the weighted score. -/
def sorted_pairs (sims : List ℚ) (secs : List PySection) : List (ℚ × ℕ) :=
  (weighted_pairs sims secs).insertionSort rankGE

/-- `DocumentIntelligenceSystem.rank_sections`.  The embedding model is an
external collaborator, modelled as an optional similarity oracle taking the
query string and a section text to their cosine similarity; `self.model is
None` is `none`.  Note the guard checks only the section list and the model. -/
def rank_sections (model : Option (Str → Str → ℚ)) (top_k : Nat)
    (sections : List PySection) (query : Str) : List RankedSection :=
  match model with
  | none => []
  | some sim =>
    if sections.isEmpty then []
    else
      let similarities := sections.map (fun s => sim query s.text)
      ((sorted_pairs similarities sections).take top_k).enum.map
        (fun p =>
          ⟨sections.getD p.2.2 default, p.1 + 1, similarities.getD p.2.2 0⟩)

/-- Claim-side reading of pattern (i): an uppercase letter followed by one or
more letters, whitespace, `&` or `-` characters, and nothing else. -/
def ShapeCapitalRun (l : Str) : Prop :=
  ∃ c rest, l = c :: rest ∧ c.isUpper = true ∧ rest ≠ [] ∧
    ∀ d ∈ rest, headerBodyChar d = true

/-- Claim-side reading of pattern (ii): the line starts with a decimal-numbered
list marker, `digit+. whitespace* Capital`. -/
def ShapeNumbered (l : Str) : Prop :=
  ∃ ds ws c rest, l = ds ++ '.' :: (ws ++ c :: rest) ∧ ds ≠ [] ∧
    (∀ d ∈ ds, d.isDigit = true) ∧ (∀ w ∈ ws, pyWs w = true) ∧ c.isUpper = true

/-- Claim-side reading of pattern (iii): the line starts with a roman-numeral
list marker, `[IVX]+. whitespace* Capital`. -/
def ShapeRoman (l : Str) : Prop :=
  ∃ ds ws c rest, l = ds ++ '.' :: (ws ++ c :: rest) ∧ ds ≠ [] ∧
    (∀ d ∈ ds, romanChar d = true) ∧ (∀ w ∈ ws, pyWs w = true) ∧ c.isUpper = true

/-- Claim-side reading of pattern (iv): entirely uppercase letters and
whitespace. -/
def ShapeAllCaps (l : Str) : Prop :=
  l ≠ [] ∧ ∀ c ∈ l, (c.isUpper || pyWs c) = true

/-- Claim-side reading of pattern (v): the line starts with a two-word
capitalized phrase, `Capital lower+ whitespace+ Capital lower+`. -/
def ShapeTwoWords (l : Str) : Prop :=
  ∃ a low ws b e rest, l = a :: (low ++ ws ++ b :: e :: rest) ∧
    a.isUpper = true ∧ low ≠ [] ∧ (∀ c ∈ low, c.isLower = true) ∧
    ws ≠ [] ∧ (∀ c ∈ ws, pyWs c = true) ∧ b.isUpper = true ∧ e.isLower = true

/-- Claim-side characterization of header detection: length in [3,150], one of
the five shapes, and neither exclusion (all-uppercase longer than 50, or more
than 3 periods). -/
def HeaderSpec (l : Str) : Prop :=
  3 ≤ l.length ∧ l.length ≤ 150 ∧
    (ShapeCapitalRun l ∨ ShapeNumbered l ∨ ShapeRoman l ∨ ShapeAllCaps l ∨
      ShapeTwoWords l) ∧
    ¬(pyIsUpper l = true ∧ 50 < l.length) ∧ ¬(3 < l.count '.')

/-- Claim-side assembly of the persona query: the present parts joined by the
literal delimiter `" | "`, task first, `"Role: "` always last. -/
def query_spec (persona : Persona) (job : Job) : Str :=
  job.task ++
    (if persona.expertise_areas = [] then []
      else " | Expertise in: ".data ++ commaJoin persona.expertise_areas) ++
    (if persona.focus_areas = [] then []
      else " | Focus on: ".data ++ commaJoin persona.focus_areas) ++
    (if job.requirements = [] then []
      else " | Requirements: ".data ++ commaJoin job.requirements) ++
    " | Role: ".data ++ persona.role

/-- The body text the segmenter accumulates over a run of non-header lines:
each nonempty stripped line followed by a single space. -/
def body_accum (lines : List Str) : Str :=
  (lines.map (fun l => if pyStrip l = [] then [] else pyStrip l ++ [' '])).flatten

/-- A one-line page none of whose lines is a section header. -/
def c1Page : Str := "hello world this is lowercase text".data

/-- A two-line page none of whose lines is a section header. -/
def c1WitnessPage : Str := "hello world\nmore lowercase body text".data

/-- A page with two nonempty body lines, neither of which is a header. -/
def c6Page : Str := "alpha beta gamma\ndelta epsilon and zeta".data

/-- Nine words: dropped by the filter. -/
def nineWordText : Str := "one two three four five six seven eight nine".data

/-- Ten words, no newline, no digit: kept by the filter. -/
def tenWordText : Str :=
  "alpha beta gamma delta epsilon zeta eta theta iota kappa".data

/-- Ten words, 60 characters of which exactly 18 are digits: digit ratio is
exactly 0.3, so the section is kept. -/
def digitRatio30Text : Str :=
  "ab ab ab ab ab ab ab ab ab 123456789123456789abcdefghijklmno".data

/-- Ten words, 100 characters of which 31 are digits: digit ratio 0.31, so the
section is dropped. -/
def digitRatio31Text : Str :=
  "ab ab ab ab ab ab ab ab ab 1234567890123456789012345678901abcdefghijklmnopqrstuvwxyzabcdefghijklmnop".data

/-- The references section of the spec's ranking example (similarity 0.9). -/
def exRefSec : PySection := { text := "r".data, content_type := "references".data }

/-- The methodology section of the spec's ranking example (similarity 0.7). -/
def exMethSec : PySection := { text := "m".data, content_type := "methodology".data }

/-- The similarity oracle of the spec's ranking example. -/
def exSim : Str → Str → ℚ := fun _ t => if t = "r".data then 9 / 10 else 7 / 10

/-- Two equal-similarity sections of the same content type, for the tie-break
stability witness. -/
def tieSecs : List PySection :=
  [{ content_type := "content".data }, { content_type := "content".data }]

/-- Equal similarity scores for the tie-break stability witness. -/
def tieSims : List ℚ := [1 / 2, 1 / 2]

attribute [local semireducible] Rat.mul Rat.add Rat.sub Rat.inv

theorem takeWhile_append_eq {α : Type} (p : α → Bool) (xs ys : List α) (y : α)
    (hxs : ∀ x ∈ xs, p x = true) (hy : p y = false) :
    (xs ++ y :: ys).takeWhile p = xs ∧ (xs ++ y :: ys).dropWhile p = y :: ys := by
  induction xs with
  | nil => simp [List.takeWhile_cons, List.dropWhile_cons, hy]
  | cons x xs ih =>
    have hx : p x = true := hxs x (by simp)
    have ih' := ih (fun a ha => hxs a (by simp [ha]))
    simp [List.takeWhile_cons, List.dropWhile_cons, hx, ih'.1, ih'.2]

theorem pyWs_false_of_isUpper {c : Char} (h : c.isUpper = true) : pyWs c = false := by
  cases hc : pyWs c
  · rfl
  · exfalso
    simp only [pyWs, Bool.or_eq_true, beq_iff_eq] at hc
    rcases hc with ((((h1 | h1) | h1) | h1) | h1) | h1 <;> subst h1 <;>
      exact absurd h (by decide)

theorem isLower_false_of_pyWs {c : Char} (h : pyWs c = true) : c.isLower = false := by
  simp only [pyWs, Bool.or_eq_true, beq_iff_eq] at h
  rcases h with ((((h1 | h1) | h1) | h1) | h1) | h1 <;> subst h1 <;> decide

theorem mem_of_mem_pyStrip {c : Char} {l : Str} (h : c ∈ pyStrip l) : c ∈ l := by
  unfold pyStrip at h
  rw [List.mem_reverse] at h
  have h2 := (List.dropWhile_sublist pyWs).subset h
  rw [List.mem_reverse] at h2
  exact (List.dropWhile_sublist pyWs).subset h2

theorem pyStrip_eq_nil_iff {l : Str} : pyStrip l = [] ↔ ∀ c ∈ l, pyWs c = true := by
  unfold pyStrip
  rw [List.reverse_eq_nil_iff, List.dropWhile_eq_nil_iff]
  constructor
  · intro h c hc
    have hsplit := List.takeWhile_append_dropWhile pyWs l
    rw [← hsplit] at hc
    rcases List.mem_append.mp hc with h1 | h1
    · exact List.mem_takeWhile_imp h1
    · exact h c (List.mem_reverse.mpr h1)
  · intro h c hc
    exact h c ((List.dropWhile_sublist pyWs).subset (List.mem_reverse.mp hc))

theorem mem_dropWhile_of_not (p : Char → Bool) {c : Char} (hw : p c = false) :
    ∀ {m : Str}, c ∈ m → c ∈ m.dropWhile p := by
  intro m
  induction m with
  | nil => intro hm; simp at hm
  | cons x xs ih =>
    intro hm
    rw [List.dropWhile_cons]
    by_cases hx : p x = true
    · simp only [hx, if_true]
      rcases List.mem_cons.mp hm with h1 | h1
      · subst h1; rw [hx] at hw; cases hw
      · exact ih h1
    · simp only [Bool.not_eq_true] at hx
      simp only [hx, Bool.false_eq_true, if_false]
      exact hm

theorem mem_pyStrip_of_not_ws {c : Char} {l : Str} (hc : c ∈ l) (hw : pyWs c = false) :
    c ∈ pyStrip l := by
  unfold pyStrip
  rw [List.mem_reverse]
  exact mem_dropWhile_of_not pyWs hw
    (List.mem_reverse.mpr (mem_dropWhile_of_not pyWs hw hc))

theorem splitP_pieces_no_sep (p : Char → Bool) :
    ∀ (l : Str) (piece : Str), piece ∈ splitP p l → ∀ c ∈ piece, p c = false := by
  intro l
  induction l with
  | nil =>
    intro piece hp c hc
    simp [splitP] at hp
    subst hp
    simp at hc
  | cons x xs ih =>
    intro piece hp c hc
    rw [splitP] at hp
    rcases hsp : splitP p xs with _ | ⟨q, qs⟩
    · rw [hsp] at hp
      simp at hp
      subst hp
      simp at hc
    · rw [hsp] at hp
      by_cases hx : p x = true
      · simp only [hx, if_true] at hp
        rcases List.mem_cons.mp hp with h1 | h1
        · subst h1; simp at hc
        · exact ih piece (by rw [hsp]; exact h1) c hc
      · rw [Bool.not_eq_true] at hx
        simp only [hx, Bool.false_eq_true, if_false] at hp
        rcases List.mem_cons.mp hp with h1 | h1
        · subst h1
          rcases List.mem_cons.mp hc with h2 | h2
          · subst h2; exact hx
          · exact ih q (by rw [hsp]; simp) c h2
        · exact ih piece (by rw [hsp]; simp [h1]) c hc

theorem pyLines_no_newline {l piece : Str} (h : piece ∈ pyLines l) : '\n' ∉ piece := by
  intro hc
  have := splitP_pieces_no_sep (fun c => c == '\n') l piece h '\n' hc
  simp at this

theorem seg_fold_no_header :
    ∀ (ls : List Str) (st : List TSec × TSec),
      (∀ l ∈ ls, is_section_header (pyStrip l) = false) →
      ls.foldl seg_step st = (st.1, ⟨st.2.title, st.2.text ++ body_accum ls⟩) := by
  intro ls
  induction ls with
  | nil =>
    intro st _
    obtain ⟨secs, t, x⟩ := st
    simp [body_accum]
  | cons l ls ih =>
    intro st h
    rw [List.foldl_cons]
    have hl : is_section_header (pyStrip l) = false := h l (by simp)
    by_cases he : pyStrip l = []
    · have hstep : seg_step st l = st := by simp [seg_step, he]
      rw [hstep, ih st (fun a ha => h a (by simp [ha]))]
      simp [body_accum, he]
    · have hstep : seg_step st l =
        (st.1, ⟨st.2.title, st.2.text ++ pyStrip l ++ [' ']⟩) := by
          simp [seg_step, he, hl]
      rw [hstep, ih _ (fun a ha => h a (by simp [ha]))]
      simp [body_accum, he, List.append_assoc]

theorem pyStrip_body_accum_ne_nil {ls : List Str}
    (h : ∃ l ∈ ls, pyStrip l ≠ []) : pyStrip (body_accum ls) ≠ [] := by
  obtain ⟨l, hl, hne⟩ := h
  have hex : ∃ c ∈ l, pyWs c = false := by
    by_contra hall
    push_neg at hall
    exact hne (pyStrip_eq_nil_iff.mpr (fun c hc => by simpa using hall c hc))
  obtain ⟨c, hcl, hcw⟩ := hex
  have hcb : c ∈ body_accum ls := by
    rw [body_accum, List.mem_flatten]
    refine ⟨if pyStrip l = [] then [] else pyStrip l ++ [' '],
      List.mem_map_of_mem _ hl, ?_⟩
    rw [if_neg hne]
    exact List.mem_append.mpr (Or.inl (mem_pyStrip_of_not_ws hcl hcw))
  intro hnil
  have := pyStrip_eq_nil_iff.mp hnil c hcb
  rw [hcw] at this
  cases this

theorem seg_step_good {st : List TSec × TSec} {l : Str}
    (hl : '\n' ∉ l)
    (h1 : ∀ s ∈ st.1, s.text ≠ [] ∧ '\n' ∉ s.text)
    (h2 : '\n' ∉ st.2.text) :
    (∀ s ∈ (seg_step st l).1, s.text ≠ [] ∧ '\n' ∉ s.text) ∧
      '\n' ∉ (seg_step st l).2.text := by
  by_cases he : pyStrip l = []
  · have : seg_step st l = st := by simp [seg_step, he]
    rw [this]
    exact ⟨h1, h2⟩
  · by_cases hh : is_section_header (pyStrip l) = true
    · by_cases hf : pyStrip st.2.text = []
      · have : seg_step st l = (st.1, ⟨pyStrip l, []⟩) := by
          simp [seg_step, he, hh, hf]
        rw [this]
        exact ⟨h1, by simp⟩
      · have : seg_step st l =
          (st.1 ++ [⟨if st.2.title = [] then (pyStrip l).take 100 else st.2.title,
              pyStrip st.2.text⟩],
            ⟨pyStrip l, []⟩) := by
          simp [seg_step, he, hh, hf]
        rw [this]
        refine ⟨?_, by simp⟩
        intro s hs
        rcases List.mem_append.mp hs with h3 | h3
        · exact h1 s h3
        · simp only [List.mem_singleton] at h3
          subst h3
          exact ⟨hf, fun hmem => h2 (mem_of_mem_pyStrip hmem)⟩
    · rw [Bool.not_eq_true] at hh
      have : seg_step st l = (st.1, ⟨st.2.title, st.2.text ++ pyStrip l ++ [' ']⟩) := by
        simp [seg_step, he, hh]
      rw [this]
      refine ⟨h1, ?_⟩
      intro hmem
      simp only [List.append_assoc, List.mem_append] at hmem
      rcases hmem with h3 | h3 | h3
      · exact h2 h3
      · exact hl (mem_of_mem_pyStrip h3)
      · simp at h3
  -- the list-literal membership above exhausts the cases

theorem seg_fold_good :
    ∀ (ls : List Str) (st : List TSec × TSec),
      (∀ l ∈ ls, '\n' ∉ l) →
      (∀ s ∈ st.1, s.text ≠ [] ∧ '\n' ∉ s.text) →
      '\n' ∉ st.2.text →
      (∀ s ∈ (ls.foldl seg_step st).1, s.text ≠ [] ∧ '\n' ∉ s.text) ∧
        '\n' ∉ (ls.foldl seg_step st).2.text := by
  intro ls
  induction ls with
  | nil => intro st _ h1 h2; exact ⟨h1, h2⟩
  | cons l ls ih =>
    intro st hln h1 h2
    rw [List.foldl_cons]
    have hstep := seg_step_good (hln l (by simp)) h1 h2
    exact ih (seg_step st l) (fun a ha => hln a (by simp [ha])) hstep.1 hstep.2

theorem extract_sections_inv (text : Str) :
    ∀ s ∈ extract_sections_from_page text,
      s.text ≠ [] ∧ ('\n' ∉ s.text ∨ s.text = pyStrip text) := by
  intro s hs
  obtain ⟨hsecs, hcur⟩ := seg_fold_good (pyLines text) ([], ⟨[], []⟩)
    (fun l hl => pyLines_no_newline hl) (by simp) (by simp)
  simp only [extract_sections_from_page] at hs
  set r := (pyLines text).foldl seg_step ([], ⟨[], []⟩) with hr
  by_cases hflush : pyStrip r.2.text = []
  · have hsimp :
        (if pyStrip r.2.text ≠ [] then
            r.1 ++ [⟨if r.2.title = [] then "Content".data else r.2.title,
              pyStrip r.2.text⟩]
          else r.1) = r.1 :=
      if_neg (by simp [hflush])
    rw [hsimp] at hs
    by_cases hfb : r.1 = [] ∧ pyStrip text ≠ []
    · rw [if_pos hfb] at hs
      simp only [List.mem_singleton] at hs
      subst hs
      exact ⟨hfb.2, Or.inr rfl⟩
    · rw [if_neg hfb] at hs
      obtain ⟨a, b⟩ := hsecs s hs
      exact ⟨a, Or.inl b⟩
  · have hsimp :
        (if pyStrip r.2.text ≠ [] then
            r.1 ++ [⟨if r.2.title = [] then "Content".data else r.2.title,
              pyStrip r.2.text⟩]
          else r.1) =
          r.1 ++ [⟨if r.2.title = [] then "Content".data else r.2.title,
            pyStrip r.2.text⟩] :=
      if_pos hflush
    rw [hsimp] at hs
    rw [if_neg (by simp)] at hs
    rcases List.mem_append.mp hs with h3 | h3
    · obtain ⟨a, b⟩ := hsecs s h3
      exact ⟨a, Or.inl b⟩
    · simp only [List.mem_singleton] at h3
      subst h3
      exact ⟨hflush, Or.inl (fun hmem => hcur (mem_of_mem_pyStrip hmem))⟩

theorem markerPat_iff (cls : Char → Bool) (l : Str) (hdot : cls '.' = false) :
    markerPat cls l = true ↔
      ∃ ds ws c rest, l = ds ++ '.' :: (ws ++ c :: rest) ∧ ds ≠ [] ∧
        (∀ d ∈ ds, cls d = true) ∧ (∀ w ∈ ws, pyWs w = true) ∧ c.isUpper = true := by
  unfold markerPat
  constructor
  · intro h
    rw [Bool.and_eq_true] at h
    obtain ⟨hds, hrest⟩ := h
    have hds' : l.takeWhile cls ≠ [] := by
      intro hnil
      rw [hnil] at hds
      simp at hds
    rcases hdrop : l.dropWhile cls with _ | ⟨c0, rest⟩
    · rw [hdrop] at hrest
      simp at hrest
    · rw [hdrop] at hrest
      rw [show (match c0 :: rest with
          | c :: rest =>
            c == '.' &&
              match rest.dropWhile pyWs with
              | d :: _ => d.isUpper
              | [] => false
          | [] => false) =
          (c0 == '.' &&
            match rest.dropWhile pyWs with
            | d :: _ => d.isUpper
            | [] => false) from rfl] at hrest
      rw [Bool.and_eq_true, beq_iff_eq] at hrest
      obtain ⟨hc0, hup⟩ := hrest
      subst hc0
      rcases hdrop2 : rest.dropWhile pyWs with _ | ⟨d, rest2⟩
      · rw [hdrop2] at hup
        simp at hup
      · rw [hdrop2] at hup
        refine ⟨l.takeWhile cls, rest.takeWhile pyWs, d, rest2, ?_, hds',
          fun d' hd' => List.mem_takeWhile_imp hd',
          fun w hw => List.mem_takeWhile_imp hw, hup⟩
        conv_lhs => rw [← List.takeWhile_append_dropWhile cls l]
        rw [hdrop]
        have hrw : rest = rest.takeWhile pyWs ++ d :: rest2 := by
          conv_lhs => rw [← List.takeWhile_append_dropWhile pyWs rest]
          rw [hdrop2]
        conv_lhs => rw [hrw]
  · rintro ⟨ds, ws, c, rest, rfl, hne, hds, hws, hup⟩
    obtain ⟨ht, hd⟩ := takeWhile_append_eq cls ds (ws ++ c :: rest) '.' hds hdot
    rw [Bool.and_eq_true, ht, hd]
    refine ⟨by simpa using hne, ?_⟩
    rw [show (match ('.' :: (ws ++ c :: rest) : Str) with
        | c :: rest =>
          c == '.' &&
            match rest.dropWhile pyWs with
            | d :: _ => d.isUpper
            | [] => false
        | [] => false) =
        (('.' : Char) == '.' &&
          match (ws ++ c :: rest).dropWhile pyWs with
          | d :: _ => d.isUpper
          | [] => false) from rfl]
    obtain ⟨_, hd2⟩ := takeWhile_append_eq pyWs ws rest c hws (pyWs_false_of_isUpper hup)
    rw [hd2]
    simpa using hup

theorem patNumbered_iff (l : Str) : patNumbered l = true ↔ ShapeNumbered l :=
  markerPat_iff Char.isDigit l (by decide)

theorem patRoman_iff (l : Str) : patRoman l = true ↔ ShapeRoman l :=
  markerPat_iff romanChar l (by decide)

theorem patCapitalRun_iff (l : Str) : patCapitalRun l = true ↔ ShapeCapitalRun l := by
  unfold patCapitalRun ShapeCapitalRun
  cases l with
  | nil => simp
  | cons c rest =>
    simp only [Bool.and_eq_true, Bool.not_eq_true', List.isEmpty_eq_false,
      List.all_eq_true]
    constructor
    · rintro ⟨⟨hup, hne⟩, hall⟩
      exact ⟨c, rest, rfl, hup, hne, hall⟩
    · rintro ⟨c', rest', heq, hup, hne, hall⟩
      injection heq with h1 h2
      subst h1
      subst h2
      exact ⟨⟨hup, hne⟩, hall⟩

theorem patAllCaps_iff (l : Str) : patAllCaps l = true ↔ ShapeAllCaps l := by
  unfold patAllCaps ShapeAllCaps
  simp only [Bool.and_eq_true, Bool.not_eq_true', List.isEmpty_eq_false,
    List.all_eq_true]

theorem patTwoWords_iff (l : Str) : patTwoWords l = true ↔ ShapeTwoWords l := by
  unfold patTwoWords ShapeTwoWords
  cases l with
  | nil => simp
  | cons a r1 =>
    constructor
    · intro h
      simp only [Bool.and_eq_true, Bool.not_eq_true', List.isEmpty_eq_false] at h
      obtain ⟨hupA, hlow, hrest⟩ := h
      obtain ⟨hws, hmatch⟩ := hrest
      rcases hdrop : (r1.dropWhile Char.isLower).dropWhile pyWs with _ | ⟨b, rest3⟩
      · rw [hdrop] at hmatch
        simp at hmatch
      · rcases rest3 with _ | ⟨e, rest4⟩
        · rw [hdrop] at hmatch
          simp at hmatch
        · rw [hdrop] at hmatch
          rw [show (match b :: e :: rest4 with
              | b :: e :: _ => b.isUpper && e.isLower
              | _ => false) = (b.isUpper && e.isLower) from rfl] at hmatch
          rw [Bool.and_eq_true] at hmatch
          obtain ⟨hupB, hlowE⟩ := hmatch
          refine ⟨a, r1.takeWhile Char.isLower, (r1.dropWhile Char.isLower).takeWhile pyWs,
            b, e, rest4, ?_, hupA, hlow,
            fun d hd => List.mem_takeWhile_imp hd,
            hws, fun d hd => List.mem_takeWhile_imp hd, hupB, hlowE⟩
          have hrw1 : r1 = r1.takeWhile Char.isLower ++ r1.dropWhile Char.isLower :=
            (List.takeWhile_append_dropWhile Char.isLower r1).symm
          have hrw2 : r1.dropWhile Char.isLower =
              (r1.dropWhile Char.isLower).takeWhile pyWs ++ b :: e :: rest4 := by
            conv_lhs =>
              rw [← List.takeWhile_append_dropWhile pyWs (r1.dropWhile Char.isLower)]
            rw [hdrop]
          rw [List.cons_inj_right]
          conv_lhs => rw [hrw1, hrw2]
          rw [List.append_assoc]
    · rintro ⟨a', low, ws, b, e, rest, heq, hupA, hlowne, hlow, hwsne, hws, hupB, hlowE⟩
      injection heq with h1 h2
      subst h1
      subst h2
      have hwsHead : ∃ w ws', ws = w :: ws' := by
        rcases ws with _ | ⟨w, ws'⟩
        · exact absurd rfl hwsne
        · exact ⟨w, ws', rfl⟩
      obtain ⟨w, ws', rfl⟩ := hwsHead
      have hwFirst : pyWs w = true := hws w (by simp)
      obtain ⟨ht1, hd1⟩ := takeWhile_append_eq Char.isLower low (ws' ++ b :: e :: rest) w
        hlow (isLower_false_of_pyWs hwFirst)
      simp only [Bool.and_eq_true, Bool.not_eq_true', List.isEmpty_eq_false]
      refine ⟨hupA, ?_, ?_⟩
      · rw [List.append_assoc, List.cons_append, ht1]
        exact hlowne
      · rw [List.append_assoc, List.cons_append, hd1]
        obtain ⟨ht2, hd2⟩ := takeWhile_append_eq pyWs (w :: ws') (e :: rest) b
          (by intro x hx; exact hws x hx) (pyWs_false_of_isUpper hupB)
        rw [show (w :: ws') ++ b :: e :: rest = w :: (ws' ++ b :: e :: rest) by simp] at ht2 hd2
        refine ⟨?_, ?_⟩
        · rw [ht2]
          simp
        · rw [hd2]
          rw [show (match b :: e :: rest with
              | b :: e :: _ => b.isUpper && e.isLower
              | _ => false) = (b.isUpper && e.isLower) from rfl]
          rw [Bool.and_eq_true]
          exact ⟨hupB, hlowE⟩

theorem any_patterns_collapse (a b c d e x y : Bool) :
    ([a, b, c, d, e].any (fun m => m && !x && !y)) =
      ((a || b || c || d || e) && !x && !y) := by
  cases a <;> cases b <;> cases c <;> cases d <;> cases e <;> cases x <;> cases y <;> rfl

theorem ratio_gt_tenth_iff (a b : ℕ) (hb : 0 < b) :
    ((a : ℚ) / (b : ℚ) > 1 / 10) ↔ b < 10 * a := by
  rw [gt_iff_lt, div_lt_div_iff₀ (by norm_num) (by exact_mod_cast hb)]
  constructor
  · intro h
    have h' : (b : ℚ) < 10 * a := by linarith
    exact_mod_cast h'
  · intro h
    have h' : (b : ℚ) < 10 * a := by exact_mod_cast h
    linarith

theorem ratio_gt_three_tenths_iff (a b : ℕ) (hb : 0 < b) :
    ((a : ℚ) / (b : ℚ) > 3 / 10) ↔ 3 * b < 10 * a := by
  rw [gt_iff_lt, div_lt_div_iff₀ (by norm_num) (by exact_mod_cast hb)]
  constructor
  · intro h
    have h' : ((3 * b : ℕ) : ℚ) < ((10 * a : ℕ) : ℚ) := by push_cast; linarith
    exact_mod_cast h'
  · intro h
    have h' : ((3 * b : ℕ) : ℚ) < ((10 * a : ℕ) : ℚ) := by exact_mod_cast h
    push_cast at h'
    linarith

theorem newline_noise_iff (text : Str) :
    newline_noise text = true ↔
      0 < text.length ∧ text.length < 10 * text.count '\n' := by
  unfold newline_noise
  by_cases h : 0 < text.length
  · rw [if_pos h, decide_eq_true_eq, ratio_gt_tenth_iff _ _ h]
    simp [h]
  · rw [if_neg h]
    simp [h]

theorem digit_noise_iff (text : Str) :
    digit_noise text = true ↔
      0 < text.length ∧ 3 * text.length < 10 * (text.filter Char.isDigit).length := by
  unfold digit_noise
  by_cases h : 0 < text.length
  · rw [if_pos h, decide_eq_true_eq, ratio_gt_three_tenths_iff _ _ h]
    simp [h]
  · rw [if_neg h]
    simp [h]

theorem is_meaningful_section_iff (text : Str) :
    is_meaningful_section text = false ↔
      ((pySplitWs text).length < 10 ∨
        (0 < text.length ∧ text.length < 10 * text.count '\n') ∨
        (0 < text.length ∧ 3 * text.length < 10 * (text.filter Char.isDigit).length)) := by
  unfold is_meaningful_section
  rw [← newline_noise_iff, ← digit_noise_iff]
  cases hw : decide ((pySplitWs text).length < 10) <;>
    cases hn : newline_noise text <;>
    cases hd : digit_noise text <;>
    simp_all

theorem intercalate_cons_cons (sep a : Str) {xs : List Str} (h : xs ≠ []) :
    List.intercalate sep (a :: xs) = a ++ sep ++ List.intercalate sep xs := by
  rcases xs with _ | ⟨b, t⟩
  · exact absurd rfl h
  · simp [List.intercalate]

theorem intercalate_singleton (sep a : Str) : List.intercalate sep [a] = a := by
  simp [List.intercalate]

theorem weighted_pairs_length (sims : List ℚ) (secs : List PySection) :
    (weighted_pairs sims secs).length = min sims.length secs.length := by
  simp [weighted_pairs, List.enum_length]

theorem weighted_pairs_getD (sims : List ℚ) (secs : List PySection) (i : ℕ)
    (h : i < (weighted_pairs sims secs).length) :
    (weighted_pairs sims secs).getD i (0, 0) =
      (sims.getD i 0 * contentWeight (secs.getD i default).content_type, i) := by
  have hs : i < sims.length := by
    rw [weighted_pairs_length] at h
    exact lt_of_lt_of_le h (min_le_left _ _)
  have hsec : i < secs.length := by
    rw [weighted_pairs_length] at h
    exact lt_of_lt_of_le h (min_le_right _ _)
  rw [List.getD_eq_getElem _ _ h]
  unfold weighted_pairs
  rw [List.getElem_map, List.getElem_enum, List.getElem_zip,
    List.getD_eq_getElem _ _ hs, List.getD_eq_getElem _ _ hsec]

theorem mem_weighted_pairs {sims : List ℚ} {secs : List PySection} {x : ℚ × ℕ}
    (hx : x ∈ weighted_pairs sims secs) :
    x.2 < sims.length ∧ x.2 < secs.length ∧
      x.1 = sims.getD x.2 0 * contentWeight (secs.getD x.2 default).content_type := by
  obtain ⟨i, hi, hq⟩ := List.mem_iff_getElem.mp hx
  have hgetD := weighted_pairs_getD sims secs i hi
  rw [List.getD_eq_getElem _ _ hi, hq] at hgetD
  obtain ⟨w, idx⟩ := x
  rw [Prod.mk.injEq] at hgetD
  obtain ⟨hw, hidx⟩ := hgetD
  subst hidx
  rw [weighted_pairs_length, Nat.lt_min] at hi
  exact ⟨hi.1, hi.2, hw⟩

theorem weighted_pairs_map_snd (sims : List ℚ) (secs : List PySection) :
    (weighted_pairs sims secs).map Prod.snd = List.range (sims.zip secs).length := by
  unfold weighted_pairs
  rw [List.map_map]
  rw [show (Prod.snd ∘ fun p : ℕ × (ℚ × PySection) =>
      (p.2.1 * contentWeight p.2.2.content_type, p.1)) = Prod.fst from rfl]
  rw [List.enum_map_fst]

theorem sorted_pairs_perm (sims : List ℚ) (secs : List PySection) :
    (sorted_pairs sims secs).Perm (weighted_pairs sims secs) :=
  List.perm_insertionSort rankGE _

theorem sorted_pairs_pairwise (sims : List ℚ) (secs : List PySection) :
    (sorted_pairs sims secs).Pairwise rankGE :=
  List.sorted_insertionSort rankGE _

theorem sorted_pairs_snd_nodup (sims : List ℚ) (secs : List PySection) :
    ((sorted_pairs sims secs).map Prod.snd).Nodup := by
  refine (((sorted_pairs_perm sims secs).map Prod.snd).nodup_iff).mpr ?_
  rw [weighted_pairs_map_snd]
  exact List.nodup_range _

theorem pair_getD_sublist {α : Type} (d : α) :
    ∀ (l : List α) (i j : ℕ), i < j → j < l.length →
      [l.getD i d, l.getD j d].Sublist l := by
  intro l
  induction l with
  | nil =>
    intro i j hij hj
    simp at hj
  | cons x t ih =>
    intro i j hij hj
    rcases i with _ | i'
    · rcases j with _ | j'
      · omega
      · simp only [List.getD_cons_zero, List.getD_cons_succ]
        refine List.Sublist.cons₂ x ?_
        rw [List.singleton_sublist]
        have hj' : j' < t.length := by simpa using hj
        rw [List.getD_eq_getElem _ _ hj']
        exact List.getElem_mem hj'
    · rcases j with _ | j'
      · omega
      · simp only [List.getD_cons_succ]
        exact List.Sublist.cons x (ih i' j' (by omega) (by simpa using hj))

theorem pair_sublist_positions {α : Type} {a b : α} {l : List α}
    (h : [a, b].Sublist l) :
    ∃ p q : Fin l.length, (p : ℕ) < (q : ℕ) ∧ l[p] = a ∧ l[q] = b := by
  obtain ⟨is, heq, hpw⟩ := List.sublist_eq_map_getElem h
  rcases is with _ | ⟨p, is⟩
  · simp at heq
  · rcases is with _ | ⟨q, is⟩
    · simp at heq
    · rcases is with _ | ⟨r, is⟩
      · simp only [List.map_cons, List.map_nil] at heq
        injection heq with h1 h2
        injection h2 with h2 _
        rw [List.pairwise_pair] at hpw
        exact ⟨p, q, hpw, h1.symm, h2.symm⟩
      · simp at heq

theorem rank_sections_eq (sim : Str → Str → ℚ) (k : ℕ) (secs : List PySection)
    (query : Str) (h : secs ≠ []) :
    rank_sections (some sim) k secs query =
      ((sorted_pairs (secs.map fun s => sim query s.text) secs).take k).enum.map
        (fun p => ⟨secs.getD p.2.2 default, p.1 + 1,
          (secs.map fun s => sim query s.text).getD p.2.2 0⟩) := by
  unfold rank_sections
  dsimp only
  rw [if_neg (by simpa using h)]

theorem take_sorted_pairs_length (sims : List ℚ) (secs : List PySection) (k : ℕ)
    (hlen : sims.length = secs.length) :
    ((sorted_pairs sims secs).take k).length = min k secs.length := by
  rw [List.length_take]
  unfold sorted_pairs
  rw [List.length_insertionSort, weighted_pairs_length, hlen, min_self]

theorem rank_sections_length (sim : Str → Str → ℚ) (k : ℕ) (secs : List PySection)
    (query : Str) (h : secs ≠ []) :
    (rank_sections (some sim) k secs query).length = min k secs.length := by
  rw [rank_sections_eq sim k secs query h, List.length_map, List.enum_length,
    take_sorted_pairs_length _ _ _ (List.length_map _ _)]

theorem rank_sections_score_raw (sim : Str → Str → ℚ) (k : ℕ) (secs : List PySection)
    (query : Str) (r : RankedSection)
    (hr : r ∈ rank_sections (some sim) k secs query) :
    r.relevance_score = sim query r.sec.text := by
  by_cases h : secs = []
  · subst h
    simp [rank_sections] at hr
  · rw [rank_sections_eq sim k secs query h] at hr
    obtain ⟨p, hp, hpe⟩ := List.mem_map.mp hr
    have hmem : p.2 ∈ (sorted_pairs (secs.map fun s => sim query s.text) secs).take k := by
      have h2 := List.mem_map_of_mem Prod.snd hp
      rw [List.enum_map_snd] at h2
      exact h2
    have hwp : p.2 ∈ weighted_pairs (secs.map fun s => sim query s.text) secs :=
      (List.mem_insertionSort rankGE).mp ((List.take_sublist _ _).subset hmem)
    obtain ⟨h1, h2, h3⟩ := mem_weighted_pairs hwp
    rw [← hpe]
    show (secs.map fun s => sim query s.text).getD p.2.2 0 =
      sim query (secs.getD p.2.2 default).text
    rw [List.getD_eq_getElem _ _ (by simpa using h2), List.getElem_map,
      List.getD_eq_getElem _ _ h2]

theorem rank_sections_weighted_map (sim : Str → Str → ℚ) (k : ℕ)
    (secs : List PySection) (query : Str) (h : secs ≠ []) :
    (rank_sections (some sim) k secs query).map
        (fun r => r.relevance_score * contentWeight r.sec.content_type) =
      ((sorted_pairs (secs.map fun s => sim query s.text) secs).take k).map Prod.fst := by
  rw [rank_sections_eq sim k secs query h, List.map_map]
  rw [show ((fun r : RankedSection =>
        r.relevance_score * contentWeight r.sec.content_type) ∘
      (fun p : ℕ × (ℚ × ℕ) =>
        (⟨secs.getD p.2.2 default, p.1 + 1,
          (secs.map fun s => sim query s.text).getD p.2.2 0⟩ : RankedSection))) =
      ((fun pr : ℚ × ℕ => (secs.map fun s => sim query s.text).getD pr.2 0 *
        contentWeight (secs.getD pr.2 default).content_type) ∘ Prod.snd) from rfl]
  rw [← List.map_map, List.enum_map_snd]
  apply List.map_congr_left
  intro pr hpr
  have hwp : pr ∈ weighted_pairs (secs.map fun s => sim query s.text) secs :=
    (List.mem_insertionSort rankGE).mp ((List.take_sublist _ _).subset hpr)
  obtain ⟨h1, h2, h3⟩ := mem_weighted_pairs hwp
  exact h3.symm

theorem rank_sections_rank_map (sim : Str → Str → ℚ) (k : ℕ)
    (secs : List PySection) (query : Str) (h : secs ≠ []) :
    (rank_sections (some sim) k secs query).map (fun r => r.importance_rank) =
      List.range' 1 (min k secs.length) := by
  rw [rank_sections_eq sim k secs query h, List.map_map]
  rw [show ((fun r : RankedSection => r.importance_rank) ∘
      (fun p : ℕ × (ℚ × ℕ) =>
        (⟨secs.getD p.2.2 default, p.1 + 1,
          (secs.map fun s => sim query s.text).getD p.2.2 0⟩ : RankedSection))) =
      ((fun n => n + 1) ∘ Prod.fst) from rfl]
  rw [← List.map_map, List.enum_map_fst,
    take_sorted_pairs_length _ _ _ (List.length_map _ _), List.range'_eq_map_range]
  apply List.map_congr_left
  intro a _
  omega

theorem rank_sections_weighted_pairwise (sim : Str → Str → ℚ) (k : ℕ)
    (secs : List PySection) (query : Str) (h : secs ≠ []) :
    ((rank_sections (some sim) k secs query).map
        (fun r => r.relevance_score * contentWeight r.sec.content_type)).Pairwise
      (fun a b => b ≤ a) := by
  rw [rank_sections_weighted_map sim k secs query h]
  have hpw := List.Pairwise.sublist (List.take_sublist k _)
    (sorted_pairs_pairwise (secs.map fun s => sim query s.text) secs)
  exact List.Pairwise.map Prod.fst
    (fun a b hab => hab) hpw

/-- Claim C7: a line is detected as a section header iff its length is in
[3,150], it matches at least one of the five shape patterns, and neither
exclusion applies: an all-uppercase line longer than 50 characters or a line
with more than 3 periods is rejected even when a pattern matches. -/
theorem c7_header_detection_iff (line : Str) :
    is_section_header line = true ↔ HeaderSpec line := by
  unfold is_section_header HeaderSpec
  by_cases hlen : line.length < 3 ∨ line.length > 150
  · rw [if_pos hlen]
    simp only [Bool.false_eq_true, false_iff]
    intro hspec
    obtain ⟨h3, h150, _⟩ := hspec
    omega
  · rw [if_neg hlen, any_patterns_collapse]
    push_neg at hlen
    constructor
    · intro h
      rw [Bool.and_eq_true, Bool.and_eq_true] at h
      obtain ⟨⟨hpats, hex1⟩, hex2⟩ := h
      refine ⟨by omega, by omega, ?_, ?_, ?_⟩
      · rw [Bool.or_eq_true, Bool.or_eq_true, Bool.or_eq_true, Bool.or_eq_true] at hpats
        rcases hpats with (((h | h) | h) | h) | h
        · exact Or.inl ((patCapitalRun_iff line).mp h)
        · exact Or.inr (Or.inl ((patNumbered_iff line).mp h))
        · exact Or.inr (Or.inr (Or.inl ((patRoman_iff line).mp h)))
        · exact Or.inr (Or.inr (Or.inr (Or.inl ((patAllCaps_iff line).mp h))))
        · exact Or.inr (Or.inr (Or.inr (Or.inr ((patTwoWords_iff line).mp h))))
      · rw [Bool.not_eq_true'] at hex1
        intro hcon
        rw [hcon.1, decide_eq_true hcon.2] at hex1
        simp at hex1
      · rw [Bool.not_eq_true'] at hex2
        intro hcon
        rw [decide_eq_true hcon] at hex2
        cases hex2
    · rintro ⟨h3, h150, hpats, hex1, hex2⟩
      rw [Bool.and_eq_true, Bool.and_eq_true]
      refine ⟨⟨?_, ?_⟩, ?_⟩
      · rw [Bool.or_eq_true, Bool.or_eq_true, Bool.or_eq_true, Bool.or_eq_true]
        rcases hpats with h | h | h | h | h
        · exact Or.inl (Or.inl (Or.inl (Or.inl ((patCapitalRun_iff line).mpr h))))
        · exact Or.inl (Or.inl (Or.inl (Or.inr ((patNumbered_iff line).mpr h))))
        · exact Or.inl (Or.inl (Or.inr ((patRoman_iff line).mpr h)))
        · exact Or.inl (Or.inr ((patAllCaps_iff line).mpr h))
        · exact Or.inr ((patTwoWords_iff line).mpr h)
      · rw [Bool.not_eq_true']
        cases hu : pyIsUpper line
        · simp
        · cases hd : decide (line.length > 50)
          · simp [hd]
          · exact absurd ⟨hu, of_decide_eq_true hd⟩ hex1
      · rw [Bool.not_eq_true']
        cases hd : decide (line.count '.' > 3)
        · rfl
        · exact absurd (of_decide_eq_true hd) hex2

/-- Claim C5: the SectionFilter drops a section iff its word count is below
10, or (for nonempty text) the newline density strictly exceeds 0.1, or (for
nonempty text) the digit density strictly exceeds 0.3, the densities compared
as exact ratios; the boundary examples behave as claimed: 9 words dropped, 10
clean words kept, digit ratio exactly 0.3 kept, 0.31 dropped. -/
theorem c5_filter_drop_iff :
    (∀ text : Str, is_meaningful_section text = false ↔
      ((pySplitWs text).length < 10 ∨
        (0 < text.length ∧ text.length < 10 * text.count '\n') ∨
        (0 < text.length ∧
          3 * text.length < 10 * (text.filter Char.isDigit).length))) ∧
    is_meaningful_section nineWordText = false ∧
    is_meaningful_section tenWordText = true ∧
    is_meaningful_section digitRatio30Text = true ∧
    is_meaningful_section digitRatio31Text = false := by
  refine ⟨is_meaningful_section_iff, by decide, by decide, by decide, by decide⟩

/-- Claim C9: the persona query is the present parts joined by the literal
delimiter " | " in the order task, expertise, focus, requirements, and always
"Role: " plus the role last; the spec's example query is produced exactly. -/
theorem c9_persona_query_assembly :
    (∀ (p : Persona) (j : Job), create_persona_query p j = query_spec p j) ∧
    create_persona_query ⟨"Analyst".data, ["finance".data], []⟩
        ⟨"Summarize risk".data, []⟩ =
      "Summarize risk | Expertise in: finance | Role: Analyst".data := by
  constructor
  · intro p j
    unfold create_persona_query query_spec
    have h1 : " | Expertise in: ".data = " | ".data ++ "Expertise in: ".data := rfl
    have h2 : " | Focus on: ".data = " | ".data ++ "Focus on: ".data := rfl
    have h3 : " | Requirements: ".data = " | ".data ++ "Requirements: ".data := rfl
    have h4 : " | Role: ".data = " | ".data ++ "Role: ".data := rfl
    by_cases he : p.expertise_areas = [] <;>
      by_cases hf : p.focus_areas = [] <;>
        by_cases hr : j.requirements = [] <;>
          simp [he, hf, hr, List.isEmpty_iff, h1, h2, h3, h4,
            intercalate_cons_cons, intercalate_singleton, List.append_assoc]
  · decide

/-- Claim C1, counterexample: a page consisting of one nonempty line that
matches no header pattern yields a single section titled "Content", not the
4.1b meaningful-title cascade, which here would return the whole sentence. -/
theorem c1_no_header_title_counterexample :
    (∃ l ∈ pyLines c1Page, pyStrip l ≠ []) ∧
    (∀ l ∈ pyLines c1Page, is_section_header (pyStrip l) = false) ∧
    (extract_sections_from_page c1Page).map TSec.title = ["Content".data] ∧
    extract_meaningful_title c1Page ≠ "Content".data := by
  decide

/-- Claim C1 as amended: for every page text with at least one nonempty line
and no line matching any header pattern, the segmenter yields exactly one
section whose title is the literal label "Content" and whose text is the
stripped concatenation of the page's nonempty stripped lines, each followed
by one space; the 4.1b cascade is not invoked on this path. -/
theorem c1_no_header_single_content (text : Str)
    (h1 : ∃ l ∈ pyLines text, pyStrip l ≠ [])
    (h2 : ∀ l ∈ pyLines text, is_section_header (pyStrip l) = false) :
    extract_sections_from_page text =
      [⟨"Content".data, pyStrip (body_accum (pyLines text))⟩] := by
  have hfold := seg_fold_no_header (pyLines text) ([], ⟨[], []⟩) h2
  have hne : pyStrip (body_accum (pyLines text)) ≠ [] := pyStrip_body_accum_ne_nil h1
  simp only [extract_sections_from_page]
  rw [hfold]
  simp [hne]

/-- Witness for the amended claim C1 at a concrete two-line page. -/
theorem c1_no_header_single_content_witness :
    extract_sections_from_page c1WitnessPage =
      [⟨"Content".data, pyStrip (body_accum (pyLines c1WitnessPage))⟩] :=
  c1_no_header_single_content c1WitnessPage (by decide) (by decide)

/-- Claim C6, counterexample: a page with two nonempty non-header body lines
produces a section whose text contains no newline character at all, because
the accumulator joins stripped lines with single spaces. -/
theorem c6_newline_preserved_counterexample :
    (∀ l ∈ pyLines c6Page, pyStrip l ≠ [] ∧ is_section_header (pyStrip l) = false) ∧
    (pyLines c6Page).length = 2 ∧
    (∀ s ∈ extract_sections_from_page c6Page, s.text.count '\n' = 0) := by
  decide

/-- Claim C6 as amended: every section text handed to the filter either
contains no newline characters at all (the accumulator joins stripped lines
with single spaces) or is the whole stripped page text (the zero-section
fallback, the only path on which the filter can see raw newlines). -/
theorem c6_section_text_newlines (text : Str) :
    ∀ s ∈ extract_sections_from_page text,
      s.text.count '\n' = 0 ∨ s.text = pyStrip text := by
  intro s hs
  obtain ⟨hne, hdisj⟩ := extract_sections_inv text s hs
  rcases hdisj with h | h
  · exact Or.inl (List.count_eq_zero.mpr h)
  · exact Or.inr h

/-- Witness for the amended claim C6 at a concrete two-line page. -/
theorem c6_section_text_newlines_witness :
    ((⟨"Content".data, "alpha beta gamma delta epsilon and zeta".data⟩ : TSec) ∈
        extract_sections_from_page c6Page) ∧
      (("alpha beta gamma delta epsilon and zeta".data : Str).count '\n' = 0 ∨
        ("alpha beta gamma delta epsilon and zeta".data : Str) = pyStrip c6Page) :=
  ⟨by decide,
    c6_section_text_newlines c6Page
      ⟨"Content".data, "alpha beta gamma delta epsilon and zeta".data⟩ (by decide)⟩

/-- Claim C10: the heuristics are total over arbitrary strings: the two
density tests are guarded so the empty string produces no division (both are
false at length 0), the empty string is dropped by the filter for low word
count, and every section the segmenter emits has a nonempty text field. -/
theorem c10_heuristics_total (text : Str) :
    (text.length = 0 → newline_noise text = false ∧ digit_noise text = false) ∧
    is_meaningful_section [] = false ∧
    (∀ s ∈ extract_sections_from_page text, s.text ≠ []) := by
  refine ⟨?_, by decide, ?_⟩
  · intro h0
    unfold newline_noise digit_noise
    rw [if_neg (by omega), if_neg (by omega)]
    exact ⟨rfl, rfl⟩
  · intro s hs
    exact (extract_sections_inv text s hs).1

/-- Witness for claim C10 at the empty string and a concrete page. -/
theorem c10_heuristics_total_witness :
    (newline_noise [] = false ∧ digit_noise [] = false) ∧
      is_meaningful_section [] = false ∧
      (⟨"Content".data, c1Page⟩ : TSec).text ≠ [] :=
  ⟨(c10_heuristics_total []).1 rfl, (c10_heuristics_total []).2.1,
    (c10_heuristics_total c1Page).2.2 _ (by decide)⟩

/-- Claim C2: every ranked item reports the raw (unweighted) similarity as its
relevance_score; the ordering weight table is exactly abstract 1.2,
introduction 1.1, methodology 1.3, results 1.3, conclusion 1.2, references
0.5, content 1.0, default 1.0 for unknown labels; and on the spec's example a
references section with similarity 0.9 (weighted 0.45) ranks below a
methodology section with similarity 0.7 (weighted 0.91), rank 1 reporting the
raw 0.7. -/
theorem c2_relevance_score_raw :
    (∀ (sim : Str → Str → ℚ) (k : ℕ) (secs : List PySection) (query : Str)
        (r : RankedSection), r ∈ rank_sections (some sim) k secs query →
        r.relevance_score = sim query r.sec.text) ∧
    contentWeight "abstract".data = 12 / 10 ∧
    contentWeight "introduction".data = 11 / 10 ∧
    contentWeight "methodology".data = 13 / 10 ∧
    contentWeight "results".data = 13 / 10 ∧
    contentWeight "conclusion".data = 12 / 10 ∧
    contentWeight "references".data = 5 / 10 ∧
    contentWeight "content".data = 1 ∧
    (∀ ct : Str, ct ∉ ["abstract".data, "introduction".data, "methodology".data,
        "results".data, "conclusion".data, "references".data, "content".data] →
      contentWeight ct = 1) ∧
    rank_sections (some exSim) 10 [exRefSec, exMethSec] "q".data =
      [⟨exMethSec, 1, 7 / 10⟩, ⟨exRefSec, 2, 9 / 10⟩] ∧
    (9 : ℚ) / 10 * contentWeight "references".data = 45 / 100 ∧
    (7 : ℚ) / 10 * contentWeight "methodology".data = 91 / 100 := by
  refine ⟨rank_sections_score_raw, by decide, by decide, by decide, by decide,
    by decide, by decide, by decide, ?_, by decide, by decide, by decide⟩
  intro ct hct
  simp only [List.mem_cons, List.mem_singleton, not_or] at hct
  obtain ⟨n1, n2, n3, n4, n5, n6, n7⟩ := hct
  unfold contentWeight
  rw [if_neg n1, if_neg n2, if_neg n3, if_neg n4, if_neg n5, if_neg n6, if_neg n7.1]

/-- Witness for claim C2: the rank-1 item of the spec's example reports the
raw similarity of its own section text. -/
theorem c2_relevance_score_raw_witness :
    ((⟨exMethSec, 1, 7 / 10⟩ : RankedSection) ∈
        rank_sections (some exSim) 10 [exRefSec, exMethSec] "q".data) ∧
      (⟨exMethSec, 1, 7 / 10⟩ : RankedSection).relevance_score =
        exSim "q".data (⟨exMethSec, 1, 7 / 10⟩ : RankedSection).sec.text :=
  ⟨by decide,
    c2_relevance_score_raw.1 exSim 10 [exRefSec, exMethSec] "q".data
      ⟨exMethSec, 1, 7 / 10⟩ (by decide)⟩

/-- Claim C3: the descending sort of `rank_sections` is stable: if two
entries of the weighted-pair list have exactly equal weighted scores, the one
with the smaller pooled index appears strictly earlier in the sorted list. -/
theorem c3_rank_tie_stability (sims : List ℚ) (secs : List PySection)
    (i j p q : ℕ) (hij : i < j) (hj : j < (weighted_pairs sims secs).length)
    (hw : ((weighted_pairs sims secs).getD i (0, 0)).1 =
      ((weighted_pairs sims secs).getD j (0, 0)).1)
    (hp : p < (sorted_pairs sims secs).length)
    (hq : q < (sorted_pairs sims secs).length)
    (hpi : ((sorted_pairs sims secs).getD p (0, 0)).2 = i)
    (hqj : ((sorted_pairs sims secs).getD q (0, 0)).2 = j) :
    p < q := by
  have hi : i < (weighted_pairs sims secs).length := lt_trans hij hj
  set a := (weighted_pairs sims secs).getD i (0, 0) with ha
  set b := (weighted_pairs sims secs).getD j (0, 0) with hb
  have ha2 : a.2 = i := by rw [ha, weighted_pairs_getD _ _ _ hi]
  have hb2 : b.2 = j := by rw [hb, weighted_pairs_getD _ _ _ hj]
  have hle : rankGE a b := hw.ge
  have hsub : [a, b].Sublist (weighted_pairs sims secs) := by
    rw [ha, hb]
    exact pair_getD_sublist (0, 0) _ i j hij hj
  have hsorted : [a, b].Sublist (sorted_pairs sims secs) :=
    List.pair_sublist_insertionSort hle hsub
  obtain ⟨p', q', hpq', hp', hq'⟩ := pair_sublist_positions hsorted
  have hnd := sorted_pairs_snd_nodup sims secs
  have hinj : ∀ (m n : ℕ) (hm : m < (sorted_pairs sims secs).length)
      (hn : n < (sorted_pairs sims secs).length),
      ((sorted_pairs sims secs)[m]).2 = ((sorted_pairs sims secs)[n]).2 → m = n := by
    intro m n hm hn hsnd
    have hm2 : m < ((sorted_pairs sims secs).map Prod.snd).length := by simpa using hm
    have hn2 : n < ((sorted_pairs sims secs).map Prod.snd).length := by simpa using hn
    have heq2 : ((sorted_pairs sims secs).map Prod.snd)[m] =
        ((sorted_pairs sims secs).map Prod.snd)[n] := by
      rw [List.getElem_map, List.getElem_map]
      exact hsnd
    exact (List.Nodup.getElem_inj_iff hnd).mp heq2
  have hp2 : (sorted_pairs sims secs)[(p' : ℕ)] = a := by
    rw [← Fin.getElem_fin]
    exact hp'
  have hq2 : (sorted_pairs sims secs)[(q' : ℕ)] = b := by
    rw [← Fin.getElem_fin]
    exact hq'
  have heqp : p = (p' : ℕ) := by
    apply hinj p (p' : ℕ) hp p'.isLt
    rw [hp2, ha2, ← hpi, List.getD_eq_getElem _ _ hp]
  have heqq : q = (q' : ℕ) := by
    apply hinj q (q' : ℕ) hq q'.isLt
    rw [hq2, hb2, ← hqj, List.getD_eq_getElem _ _ hq]
  omega

/-- Witness for claim C3 at two equal-similarity content sections: the stable
sort keeps them in pooled order. -/
theorem c3_rank_tie_stability_witness :
    ((weighted_pairs tieSims tieSecs).getD 0 (0, 0)).1 =
        ((weighted_pairs tieSims tieSecs).getD 1 (0, 0)).1 ∧
      (0 : ℕ) < 1 :=
  ⟨by decide,
    c3_rank_tie_stability tieSims tieSecs 0 1 0 1 (by decide) (by decide)
      (by decide) (by decide) (by decide) (by decide) (by decide)⟩

/-- Claim C4: for a nonempty pool and configured K, the ranker returns exactly
min(K, n) items, the importance_rank values are the contiguous sequence
1..min(K, n), the weighted scores are non-increasing by rank, and when K
exceeds n all n sections are returned with no padding. -/
theorem c4_topk_invariants (sim : Str → Str → ℚ) (k : ℕ) (secs : List PySection)
    (query : Str) (h : secs ≠ []) :
    (rank_sections (some sim) k secs query).length = min k secs.length ∧
    (rank_sections (some sim) k secs query).map (fun r => r.importance_rank) =
      List.range' 1 (min k secs.length) ∧
    ((rank_sections (some sim) k secs query).map
        (fun r => r.relevance_score * contentWeight r.sec.content_type)).Pairwise
      (fun a b => b ≤ a) ∧
    (secs.length ≤ k →
      (rank_sections (some sim) k secs query).length = secs.length) :=
  ⟨rank_sections_length sim k secs query h,
   rank_sections_rank_map sim k secs query h,
   rank_sections_weighted_pairwise sim k secs query h,
   fun hk => by rw [rank_sections_length sim k secs query h]; omega⟩

/-- Witness for claim C4 on the two-section example with K = 10. -/
theorem c4_topk_invariants_witness :
    ([exRefSec, exMethSec] ≠ ([] : List PySection)) ∧
      (rank_sections (some exSim) 10 [exRefSec, exMethSec] "q".data).length =
        min 10 ([exRefSec, exMethSec] : List PySection).length :=
  ⟨by decide,
    (c4_topk_invariants exSim 10 [exRefSec, exMethSec] "q".data (by decide)).1⟩

/-- Claim C8, counterexample: with a loaded model and one pooled section, an
empty query string does not produce an empty ranking, so "empty query" is not
one of the code's empty-result conditions. -/
theorem c8_empty_query_counterexample :
    rank_sections (some (fun _ _ => 0)) 10 [{ text := "t".data }] [] ≠ [] := by
  decide

/-- Claim C8 as amended: ranking returns an empty result, without error, when
the section collection is empty or no model is available; with a model, a
nonempty pool, and positive K the result is never empty, regardless of the
query (an empty query string is not special-cased). -/
theorem c8_empty_result_conditions (model : Option (Str → Str → ℚ)) (k : ℕ)
    (secs : List PySection) (query : Str) :
    ((model = none ∨ secs = []) → rank_sections model k secs query = []) ∧
    (∀ sim, model = some sim → secs ≠ [] → 0 < k →
      rank_sections model k secs query ≠ []) := by
  constructor
  · rintro (rfl | rfl)
    · rfl
    · cases model with
      | none => rfl
      | some sim => simp [rank_sections]
  · rintro sim rfl hne hk hnil
    have hlen := rank_sections_length sim k secs query hne
    rw [hnil] at hlen
    have hmin : min k secs.length = 0 := by simpa using hlen.symm
    rw [Nat.min_eq_zero_iff] at hmin
    rcases hmin with h0 | h0
    · omega
    · exact hne (List.length_eq_zero.mp h0)

/-- Witness for the amended claim C8: empty pool gives an empty result and a
nonempty pool with a model gives a nonempty result. -/
theorem c8_empty_result_conditions_witness :
    rank_sections (some exSim) 10 ([] : List PySection) "q".data = [] ∧
      rank_sections (some exSim) 10 [exRefSec] "q".data ≠ [] :=
  ⟨(c8_empty_result_conditions (some exSim) 10 [] "q".data).1 (Or.inr rfl),
   (c8_empty_result_conditions (some exSim) 10 [exRefSec] "q".data).2 exSim rfl
     (by decide) (by decide)⟩
